import Mathlib

/-!
Verification of the Live Search Orchestrator (scalytics/Community-Edition,
`src/python_services/live_search_service`) against its natural-language
specification.  Python functions are shallowly embedded as executable Lean
definitions; Python dicts become association lists (insertion ordered),
`datetime` values become integer timestamps, and floats become rationals
(commented where rounding matters).
-/

namespace LiveSearch

/-- Python whitespace class `\s` restricted to ASCII (the inputs handled by the
service are ASCII markers): space, tab, newline, carriage return, vertical tab,
form feed. -/
def wsB (c : Char) : Bool :=
  c == ' ' || c == '\t' || c == '\n' || c == '\r' || c == '\x0b' || c == '\x0c'

/-- Python `str.strip()` on a character list. -/
def stripChars (cs : List Char) : List Char :=
  ((cs.dropWhile wsB).reverse.dropWhile wsB).reverse

/-- First-occurrence deduplication (the effect of iterating a Python dict/set
built by insertion), generalised over an already-seen accumulator. -/
def dedupFirstAux (seen : List String) : List String → List String
  | [] => []
  | u :: rest => if u ∈ seen then dedupFirstAux seen rest
                 else u :: dedupFirstAux (u :: seen) rest

/-- Distinct elements of `l` in order of first appearance. -/
def dedupFirst (l : List String) : List String := dedupFirstAux [] l

/-!
## Citations: `utils/citations.py`

`_next_identifier` converts a 0-based index into the bijective base-26
alphabetic identifier A, B, …, Z, AA, AB, ….
-/

/-- Fuel-based helper for the loop of `_next_identifier` (structural recursion
on the fuel so that concrete identifiers evaluate by kernel reduction). -/
def bijDigitsGo : Nat → Nat → List Nat
  | 0, _ => []
  | _ + 1, 0 => []
  | fuel + 1, n + 1 => bijDigitsGo fuel (n / 26) ++ [n % 26]

/-- The digit list (most significant first) produced by the loop
`while index > 0: index, rem = divmod(index - 1, 26)` of `_next_identifier`,
where the argument is the Python loop variable `index` (already incremented).
The fuel `n` always suffices because the loop variable shrinks each round. -/
def bijDigitsAux (n : Nat) : List Nat := bijDigitsGo n n

lemma bijDigitsGo_fuel_irrel : ∀ f₁ f₂ n, n ≤ f₁ → n ≤ f₂ →
    bijDigitsGo f₁ n = bijDigitsGo f₂ n := by
  intro f₁
  induction f₁ with
  | zero =>
    intro f₂ n h1 _
    interval_cases n
    cases f₂ <;> rfl
  | succ g ih =>
    intro f₂ n h1 h2
    match n, f₂ with
    | 0, f₂ => cases f₂ <;> rfl
    | m + 1, g₂ + 1 =>
      show bijDigitsGo g (m / 26) ++ [m % 26] =
           bijDigitsGo g₂ (m / 26) ++ [m % 26]
      rw [ih g₂ (m / 26)
        (le_trans (Nat.div_le_self m 26) (Nat.lt_succ_iff.1 h1))
        (le_trans (Nat.div_le_self m 26) (Nat.lt_succ_iff.1 h2))]

lemma bijDigitsAux_succ (n : Nat) :
    bijDigitsAux (n + 1) = bijDigitsAux (n / 26) ++ [n % 26] := by
  show bijDigitsGo n (n / 26) ++ [n % 26] = bijDigitsGo (n / 26) (n / 26) ++ _
  rw [bijDigitsGo_fuel_irrel n (n / 26) (n / 26) (Nat.div_le_self n 26) le_rfl]

/-- Embedding of `_next_identifier(index)`: `string.ascii_uppercase[rem]`
is the character with code `65 + rem`. -/
def nextIdentifier (index : Nat) : String :=
  ⟨(bijDigitsAux (index + 1)).map (fun d => Char.ofNat (65 + d))⟩

/-- Recover the Python loop variable from the digit list: the left fold
`a * 26 + d + 1`. -/
def bijVal (ds : List Nat) : Nat :=
  ds.foldl (fun a d => a * 26 + d + 1) 0

lemma bijVal_append_singleton (ds : List Nat) (d : Nat) :
    bijVal (ds ++ [d]) = bijVal ds * 26 + d + 1 := by
  simp [bijVal]

lemma bijVal_bijDigitsAux (n : Nat) : bijVal (bijDigitsAux n) = n := by
  induction n using Nat.strong_induction_on with
  | _ n ih =>
    match n with
    | 0 => rfl
    | m + 1 =>
      rw [bijDigitsAux_succ, bijVal_append_singleton,
        ih (m / 26) (Nat.lt_succ_of_le (Nat.div_le_self m 26))]
      omega

lemma bijDigitsAux_lt (n : Nat) : ∀ d ∈ bijDigitsAux n, d < 26 := by
  induction n using Nat.strong_induction_on with
  | _ n ih =>
    match n with
    | 0 => intro d hd; simp [bijDigitsAux, bijDigitsGo] at hd
    | m + 1 =>
      intro d hd
      rw [bijDigitsAux_succ] at hd
      rcases List.mem_append.1 hd with h | h
      · exact ih (m / 26) (Nat.lt_succ_of_le (Nat.div_le_self m 26)) d h
      · simp at h; omega

lemma letterChar_inj : ∀ d₁ < 26, ∀ d₂ < 26,
    Char.ofNat (65 + d₁) = Char.ofNat (65 + d₂) → d₁ = d₂ := by
  decide

lemma bijDigits_inj (m n : Nat)
    (h : (bijDigitsAux m).map (fun d => Char.ofNat (65 + d)) =
         (bijDigitsAux n).map (fun d => Char.ofNat (65 + d))) : m = n := by
  have hd : bijDigitsAux m = bijDigitsAux n := by
    have hm := bijDigitsAux_lt m
    have hn := bijDigitsAux_lt n
    revert hm hn h
    generalize bijDigitsAux m = xs
    generalize bijDigitsAux n = ys
    induction xs generalizing ys with
    | nil => cases ys <;> simp
    | cons x xs ih =>
      cases ys with
      | nil => simp
      | cons y ys =>
        intro h hm hn
        simp only [List.map_cons, List.cons.injEq] at h
        have hx : x = y :=
          letterChar_inj x (hm x (by simp)) y (hn y (by simp)) h.1
        have : xs = ys := by
          refine ih ys h.2 (fun d hd => hm d (by simp [hd]))
            (fun d hd => hn d (by simp [hd]))
        simp [hx, this]
  have := congrArg bijVal hd
  rwa [bijVal_bijDigitsAux, bijVal_bijDigitsAux] at this

lemma nextIdentifier_injective : Function.Injective nextIdentifier := by
  intro m n h
  have : (bijDigitsAux (m + 1)).map (fun d => Char.ofNat (65 + d)) =
         (bijDigitsAux (n + 1)).map (fun d => Char.ofNat (65 + d)) :=
    congrArg String.data h
  have := bijDigits_inj (m + 1) (n + 1) this
  omega

/-- Loop body of `resolve_urls`: `mapping` is the identifier→URL dict
(insertion ordered), `rev` the reverse URL→identifier dict, `idx` the running
`len(mapping)` counter. -/
def resolveUrlsGo : List String → List (String × String) →
    List (String × String) → Nat → List (String × String)
  | [], mapping, _, _ => mapping
  | url :: rest, mapping, rev, idx =>
    if (rev.lookup url).isSome then
      resolveUrlsGo rest mapping rev idx
    else
      resolveUrlsGo rest (mapping ++ [(nextIdentifier idx, url)])
        (rev ++ [(url, nextIdentifier idx)]) (idx + 1)

/-- Embedding of `resolve_urls(urls, existing_map)`: maps each unique URL to a
short alphabetic identifier, skipping URLs already present as values. -/
def resolveUrls (urls : List String) (existing : List (String × String)) :
    List (String × String) :=
  resolveUrlsGo urls existing (existing.map (fun p => (p.2, p.1))) existing.length

lemma lookup_isSome_iff_mem_keys (l : List (String × String)) (u : String) :
    (l.lookup u).isSome ↔ u ∈ l.map Prod.fst := by
  induction l with
  | nil => simp
  | cons p rest ih =>
    by_cases h : u = p.1
    · subst h; simp [List.lookup]
    · simp [List.lookup, beq_false_of_ne h, ih, h, Ne.symm h]

lemma resolveUrlsGo_spec (urls : List String) :
    ∀ (mapping rev : List (String × String)) (seen : List String) (idx : Nat),
    (∀ u, (rev.lookup u).isSome ↔ u ∈ seen) →
    resolveUrlsGo urls mapping rev idx =
      mapping ++ (List.enumFrom idx (dedupFirstAux seen urls)).map
        (fun p => (nextIdentifier p.1, p.2)) := by
  induction urls with
  | nil => intro mapping rev seen idx _; simp [resolveUrlsGo, dedupFirstAux]
  | cons url rest ih =>
    intro mapping rev seen idx h
    by_cases hm : url ∈ seen
    · have : (rev.lookup url).isSome := (h url).2 hm
      rw [resolveUrlsGo, if_pos this, dedupFirstAux, if_pos hm]
      exact ih mapping rev seen idx h
    · have : ¬ (rev.lookup url).isSome := fun hs => hm ((h url).1 hs)
      rw [resolveUrlsGo, if_neg this, dedupFirstAux, if_neg hm]
      have h' : ∀ u, ((rev ++ [(url, nextIdentifier idx)]).lookup u).isSome ↔
          u ∈ url :: seen := by
        intro u
        rw [lookup_isSome_iff_mem_keys]
        simp only [List.map_append, List.mem_append, List.map_cons,
          List.map_nil, List.mem_singleton, List.mem_cons]
        rw [← lookup_isSome_iff_mem_keys, h u]
        tauto
      rw [ih _ _ (url :: seen) (idx + 1) h']
      simp [List.enumFrom, List.append_assoc]

lemma dedupFirstAux_nodup (urls : List String) :
    ∀ seen, (dedupFirstAux seen urls).Nodup ∧
      ∀ u ∈ dedupFirstAux seen urls, u ∉ seen := by
  induction urls with
  | nil => intro seen; simp [dedupFirstAux]
  | cons url rest ih =>
    intro seen
    by_cases hm : url ∈ seen
    · rw [dedupFirstAux, if_pos hm]
      exact ih seen
    · rw [dedupFirstAux, if_neg hm]
      obtain ⟨hnd, hns⟩ := ih (url :: seen)
      refine ⟨List.nodup_cons.2 ⟨fun hc => (hns url hc) (by simp), hnd⟩, ?_⟩
      intro u hu
      rcases List.mem_cons.1 hu with rfl | hu
      · exact hm
      · exact fun hus => hns u hu (by simp [hus])

/-- C9: with an empty existing map, `resolve_urls` assigns to the distinct
input URLs, in order of first appearance, exactly the identifiers
`_next_identifier(0), _next_identifier(1), …`; distinct URLs receive distinct
identifiers, each distinct URL appears exactly once as a value, and the
identifier sequence is the base-26 alphabetic sequence A, …, Z, AA, AB, …. -/
theorem resolve_urls_assigns_base26_in_first_appearance_order
    (urls : List String) :
    resolveUrls urls [] =
      (List.enumFrom 0 (dedupFirst urls)).map
        (fun p => (nextIdentifier p.1, p.2)) ∧
    ((resolveUrls urls []).map Prod.snd = dedupFirst urls ∧
      (dedupFirst urls).Nodup) ∧
    Function.Injective nextIdentifier ∧
    (nextIdentifier 0 = "A" ∧ nextIdentifier 1 = "B" ∧
     nextIdentifier 25 = "Z" ∧ nextIdentifier 26 = "AA" ∧
     nextIdentifier 27 = "AB" ∧ nextIdentifier 51 = "AZ" ∧
     nextIdentifier 52 = "BA" ∧ nextIdentifier 701 = "ZZ" ∧
     nextIdentifier 702 = "AAA") := by
  have hmain : resolveUrls urls [] =
      (List.enumFrom 0 (dedupFirst urls)).map
        (fun p => (nextIdentifier p.1, p.2)) := by
    unfold resolveUrls dedupFirst
    simp only [List.map_nil, List.length_nil]
    rw [resolveUrlsGo_spec urls [] [] [] 0 (by simp [List.lookup])]
    simp
  refine ⟨hmain, ⟨?_, (dedupFirstAux_nodup urls []).1⟩,
    nextIdentifier_injective, by decide⟩
  rw [hmain, List.map_map]
  have hcomp : (Prod.snd ∘ fun (p : Nat × String) =>
      (nextIdentifier p.1, p.2)) = Prod.snd := by
    funext p; rfl
  rw [hcomp, List.enumFrom_map_snd]

/-!
## Rate-Limit Registry: `utils/rate_limit_manager.py`

The JSON ignore-list file is a dict `provider → iso_expiry_utc`.  We model a
loaded file as an association list whose values are the result of
`datetime.fromisoformat`: `some t` (an integer UTC timestamp, seconds) when the
stored string parses, `none` when it is malformed and raises `ValueError`.
-/

/-- A loaded ignore-list file: provider key → parsed expiry timestamp
(`none` models a malformed ISO string). -/
abbrev IgnoreFile := List (String × Option Int)

/-- Python dict assignment `d[k] = v`: replaces the value in place when the key
exists, appends otherwise. -/
def dictSet (l : IgnoreFile) (k : String) (v : Option Int) : IgnoreFile :=
  if (l.lookup k).isSome then
    l.map (fun kv => if kv.1 = k then (k, v) else kv)
  else l ++ [(k, v)]

/-- Embedding of `RateLimitManager.add_or_update_provider`: a falsy (empty)
provider name is rejected; otherwise the entry is set to
`now + effective_duration` where the duration defaults to
`default_duration_seconds`. -/
def addOrUpdateProvider (file : IgnoreFile) (providerName : String)
    (now : Int) (durationSeconds : Option Int) (defaultDuration : Int) :
    IgnoreFile :=
  if providerName = "" then file
  else dictSet file providerName (some (now + durationSeconds.getD defaultDuration))

/-- Keep predicate of `get_ignored_providers`: an entry survives iff its
timestamp parses and `expiry_dt > now_utc`. -/
def entryActive (now : Int) (e : Option Int) : Bool :=
  match e with
  | some t => t > now
  | none => false

/-- Embedding of `RateLimitManager.get_ignored_providers`: returns the active
entries and the rewritten file (expired and malformed entries deleted; when
nothing was dropped the file is written back unchanged, which the model folds
into the same filter). -/
def getIgnoredProviders (file : IgnoreFile) (now : Int) :
    List (String × Int) × IgnoreFile :=
  (file.filterMap (fun kv =>
      match kv.2 with
      | some t => if t > now then some (kv.1, t) else none
      | none => none),
   file.filter (fun kv => entryActive now kv.2))

/-- Embedding of `RateLimitManager.is_provider_ignored`: membership of the
provider among the keys returned by `get_ignored_providers` (the read also
rewrites the file, returned as the second component). -/
def isProviderIgnored (file : IgnoreFile) (providerName : String) (now : Int) :
    Bool × IgnoreFile :=
  let r := getIgnoredProviders file now
  (decide (providerName ∈ r.1.map Prod.fst), r.2)

lemma lookup_isSome_iff_mem_keys_int (l : IgnoreFile) (u : String) :
    (l.lookup u).isSome ↔ ∃ kv ∈ l, kv.1 = u := by
  induction l with
  | nil => simp
  | cons p rest ih =>
    by_cases h : u = p.1
    · subst h; simp [List.lookup]
    · rw [show (p :: rest).lookup u = rest.lookup u from by
        simp [List.lookup, beq_false_of_ne h]]
      rw [ih]
      constructor
      · rintro ⟨kv, hm, hk⟩; exact ⟨kv, List.mem_cons_of_mem _ hm, hk⟩
      · rintro ⟨kv, hm, hk⟩
        rcases List.mem_cons.1 hm with rfl | hm
        · exact absurd hk.symm h
        · exact ⟨kv, hm, hk⟩

lemma dictSet_mem_value (l : IgnoreFile) (k : String) (v e : Option Int) :
    (k, e) ∈ dictSet l k v → e = v := by
  intro h
  unfold dictSet at h
  by_cases hs : (l.lookup k).isSome
  · rw [if_pos hs] at h
    obtain ⟨kv, _, hkv⟩ := List.mem_map.1 h
    by_cases hk : kv.1 = k
    · rw [if_pos hk] at hkv
      exact ((Prod.ext_iff).1 hkv).2.symm
    · rw [if_neg hk] at hkv
      exact absurd ((Prod.ext_iff).1 hkv).1 hk
  · rw [if_neg hs] at h
    rcases List.mem_append.1 h with h | h
    · exact absurd ((lookup_isSome_iff_mem_keys_int l k).2
        ⟨(k, e), h, rfl⟩) hs
    · simp at h; exact h

lemma mem_ignored_iff (file : IgnoreFile) (now : Int) (p : String) :
    p ∈ (getIgnoredProviders file now).1.map Prod.fst ↔
      ∃ t, (p, some t) ∈ file ∧ t > now := by
  unfold getIgnoredProviders
  simp only [List.mem_map, List.mem_filterMap]
  constructor
  · rintro ⟨⟨q, v⟩, ⟨⟨q', e'⟩, hm, hf⟩, hq⟩
    match e' with
    | some t' =>
      simp only at hf
      by_cases hlt : t' > now
      · rw [if_pos (by exact_mod_cast hlt)] at hf
        obtain ⟨h1, h2⟩ := Prod.ext_iff.1 (Option.some.injEq _ _ ▸ hf :
          (q', t') = (q, v))
        simp only at h1 h2 hq
        subst h1; subst h2; subst hq
        exact ⟨t', hm, hlt⟩
      · rw [if_neg (by exact_mod_cast hlt)] at hf
        exact absurd hf (by simp)
    | none => exact absurd hf (by simp)
  · rintro ⟨t, hm, ht⟩
    exact ⟨(p, t), ⟨(p, some t), hm, by simp [ht]⟩, rfl⟩

lemma dictSet_mem_self (l : IgnoreFile) (k : String) (v : Option Int) :
    ∃ e, (k, e) ∈ dictSet l k v ∧ e = v := by
  unfold dictSet
  by_cases hs : (l.lookup k).isSome
  · rw [if_pos hs]
    obtain ⟨kv, hm, hk⟩ := (lookup_isSome_iff_mem_keys_int l k).1 hs
    refine ⟨v, List.mem_map.2 ⟨kv, hm, ?_⟩, rfl⟩
    rw [if_pos hk]
  · rw [if_neg hs]
    exact ⟨v, List.mem_append.2 (Or.inr (by simp)), rfl⟩

/-- C3: after `add_or_update_provider(p, d)` performed at time `now`, a read at
any time `t` strictly before the expiry `now + d` sees `p` ignored; a read at
any `t ≥ now + d` sees `p` not ignored and the rewritten file carries no entry
for `p`; moreover every entry surviving a read parses and is unexpired (expired
and malformed entries are pruned). -/
theorem rate_limit_mark_then_read (file : IgnoreFile) (p : String)
    (now d t : Int) (defaultDur : Int) (hp : p ≠ "") :
    (t < now + d →
      (isProviderIgnored (addOrUpdateProvider file p now (some d) defaultDur)
        p t).1 = true) ∧
    (now + d ≤ t →
      (isProviderIgnored (addOrUpdateProvider file p now (some d) defaultDur)
        p t).1 = false ∧
      ∀ e, (p, e) ∉ (isProviderIgnored
        (addOrUpdateProvider file p now (some d) defaultDur) p t).2) ∧
    (∀ q e, (q, e) ∈ (isProviderIgnored
        (addOrUpdateProvider file p now (some d) defaultDur) p t).2 →
      ∃ v, e = some v ∧ v > t) := by
  have hadd : addOrUpdateProvider file p now (some d) defaultDur =
      dictSet file p (some (now + d)) := by
    unfold addOrUpdateProvider
    rw [if_neg hp]; rfl
  rw [hadd]
  constructor
  · intro ht
    obtain ⟨e, hm, he⟩ := dictSet_mem_self file p (some (now + d))
    subst he
    unfold isProviderIgnored
    simp only [decide_eq_true_eq]
    exact (mem_ignored_iff _ t p).2 ⟨now + d, hm, by omega⟩
  constructor
  · intro ht
    constructor
    · unfold isProviderIgnored
      simp only [decide_eq_false_iff_not]
      intro hmem
      obtain ⟨v, hm, hv⟩ := (mem_ignored_iff _ t p).1 hmem
      have := dictSet_mem_value file p (some (now + d)) (some v) hm
      have : v = now + d := by injection this
      omega
    · intro e hmem
      unfold isProviderIgnored getIgnoredProviders at hmem
      simp only at hmem
      have hact := List.of_mem_filter hmem
      have hm := List.mem_of_mem_filter hmem
      have := dictSet_mem_value file p (some (now + d)) e hm
      subst this
      unfold entryActive at hact
      simp only [decide_eq_true_eq] at hact
      omega
  · intro q e hmem
    unfold isProviderIgnored getIgnoredProviders at hmem
    simp only at hmem
    have hact := List.of_mem_filter hmem
    unfold entryActive at hact
    match e with
    | some v => exact ⟨v, rfl, by simpa using hact⟩
    | none => simp at hact

/-- Witness: a concrete mark-then-read run of the registry model. -/
theorem rate_limit_mark_then_read_witness :
    (isProviderIgnored (addOrUpdateProvider [] "brave" 100 (some 30) 1800)
      "brave" 120).1 = true ∧
    (isProviderIgnored (addOrUpdateProvider [] "brave" 100 (some 30) 1800)
      "brave" 130).1 = false := by
  have h := rate_limit_mark_then_read [] "brave" 100 30 120 1800 (by decide)
  have h' := rate_limit_mark_then_read [] "brave" 100 30 130 1800 (by decide)
  exact ⟨h.1 (by omega), (h'.2.1 (by omega)).1⟩

/-!
## Domain Trust Store: `sub_workers/search_scrape.py`, `_ensure_domain_profile`

Floats are modelled as rationals.  All reachable pre-rounding scores are
multiples of 1/20 inside [0.35, 0.65], where Python's float arithmetic and
`round(x, 3)` agree exactly with the rational computation (the float
representation error is ≪ 5·10⁻⁴), so `round3` below is faithful.
-/

/-- Python `round(x, 3)` on the reachable values (round-half-to-even never
fires because `x * 1000` is an integer there). -/
def round3 (x : ℚ) : ℚ := (round (x * 1000) : ℤ) / 1000

/-- Python builtin `max(a, b)` (returns the first argument on ties). -/
def pyMax (a b : ℚ) : ℚ := if a ≥ b then a else b

/-- Python builtin `min(a, b)` (returns the first argument on ties). -/
def pyMin (a b : ℚ) : ℚ := if a ≤ b then a else b

/-- Python truthiness of the `current_domain_age_days` value
(`None` and `0` are falsy). -/
def ageTruthy (age : Option Int) : Bool :=
  match age with
  | none => false
  | some a => a != 0

/-- The age adjustment expression of `_ensure_domain_profile`:
`0.1 if current_domain_age_days and current_domain_age_days > 730 else
 -0.05 if current_domain_age_days and current_domain_age_days < 180 else 0`. -/
def ageAdjustment (age : Option Int) : ℚ :=
  if ageTruthy age ∧ age.getD 0 > 730 then 1/10
  else if ageTruthy age ∧ age.getD 0 < 180 then -(1/20)
  else 0

/-- Python `str.endswith` on character lists (kernel-reducible, unlike
`String.endsWith`). -/
def strEndsWith (s suffix : String) : Bool :=
  suffix.data.isSuffixOf s.data

/-- The TLD bonus expression: `0.1 if domain and any(domain.endswith(tld) for
tld in (".gov", ".edu", ".org")) else 0`. -/
def tldBonus (domain : String) : ℚ :=
  if domain ≠ "" ∧ (strEndsWith domain ".gov" ∨ strEndsWith domain ".edu" ∨
      strEndsWith domain ".org") then 1/10
  else 0

/-- `initial_trust_score` of the unseen-domain branch of
`_ensure_domain_profile`:
`round(max(0.05, min(0.95, 0.4 + https + age + tld)), 3)`. -/
def initialTrustScore (domain : String) (isHttps : Bool)
    (age : Option Int) : ℚ :=
  round3 (pyMax (1/20) (pyMin (19/20)
    (2/5 + (if isHttps then 1/20 else 0) + ageAdjustment age + tldBonus domain)))

/-- The unseen-domain insert of `_ensure_domain_profile`: the row is written
with the provisional score and `reference_count = 1`. -/
def ensureDomainProfileNew (domain : String) (isHttps : Bool)
    (age : Option Int) : ℚ × Nat :=
  (initialTrustScore domain isHttps age, 1)

/-- The age adjustment as the specification words it: `+0.10 if age > 2y else
-0.05 if age < 6m else 0` (unknown age contributes 0). -/
def specAgeAdjustment (age : Option Int) : ℚ :=
  match age with
  | none => 0
  | some a => if a > 730 then 1/10 else if a < 180 then -(1/20) else 0

/-- The provisional score exactly as C4/the spec word it. -/
def specInitialTrustScore (domain : String) (isHttps : Bool)
    (age : Option Int) : ℚ :=
  round3 (pyMax (1/20) (pyMin (19/20)
    (2/5 + (if isHttps then 1/20 else 0) + specAgeAdjustment age +
      tldBonus domain)))

/-- Counterexample to C4: for a domain whose WHOIS age is exactly 0 days
(registered today), the claimed formula subtracts 0.05 (age under 6 months),
but the code's truthiness test `current_domain_age_days and
current_domain_age_days < 180` is falsy at 0, so no deduction is applied:
the code returns 0.45 where the claim demands 0.40. -/
theorem trust_score_age_zero_counterexample :
    initialTrustScore "example.com" true (some 0) = 9/20 ∧
    specInitialTrustScore "example.com" true (some 0) = 2/5 ∧
    initialTrustScore "example.com" true (some 0) ≠
      specInitialTrustScore "example.com" true (some 0) := by
  have htld : tldBonus "example.com" = 0 := by
    unfold tldBonus
    rw [if_neg]
    intro h
    rcases h.2 with h | h | h <;> revert h <;> decide
  have h1 : initialTrustScore "example.com" true (some 0) = 9/20 := by
    unfold initialTrustScore ageAdjustment ageTruthy round3 pyMax pyMin
    rw [htld]
    norm_num [round_eq]
  have h2 : specInitialTrustScore "example.com" true (some 0) = 2/5 := by
    unfold specInitialTrustScore specAgeAdjustment round3 pyMax pyMin
    rw [htld]
    norm_num [round_eq]
  exact ⟨h1, h2, by rw [h1, h2]; norm_num⟩

/-- The age adjustment as amended: the −0.05 young-domain deduction applies
only when the age is known and non-zero. -/
def amendedAgeAdjustment (age : Option Int) : ℚ :=
  match age with
  | none => 0
  | some a =>
    if a ≠ 0 ∧ a > 730 then 1/10
    else if a ≠ 0 ∧ a < 180 then -(1/20)
    else 0

lemma ageAdjustment_eq_amended (age : Option Int) :
    ageAdjustment age = amendedAgeAdjustment age := by
  match age with
  | none => rfl
  | some a =>
    unfold ageAdjustment amendedAgeAdjustment ageTruthy
    simp only [Option.getD_some, bne_iff_ne]

/-- C4 (amended): for an unseen domain the inserted provisional trust score is
`0.4 + (0.05 if https) + (+0.10 if known age > 730 d else −0.05 if known
non-zero age < 180 d else 0) + (0.10 for a .gov/.edu/.org suffix)`, clamped to
[0.05, 0.95] and rounded to 3 decimals; the row carries `reference_count = 1`
and the score always lies in [0, 1]. -/
lemma round_rat_mono {a b : ℚ} (h : a ≤ b) : round a ≤ round b := by
  rw [round_eq, round_eq]
  exact Int.floor_le_floor (by linarith)

lemma clamp_bounds (x : ℚ) :
    (1/20 : ℚ) ≤ pyMax (1/20) (pyMin (19/20) x) ∧
      pyMax (1/20) (pyMin (19/20) x) ≤ 19/20 := by
  unfold pyMax pyMin
  split_ifs <;> constructor <;> linarith

theorem trust_score_new_domain (domain : String) (isHttps : Bool)
    (age : Option Int) :
    (ensureDomainProfileNew domain isHttps age).1 =
      round3 (pyMax (1/20) (pyMin (19/20)
        (2/5 + (if isHttps then 1/20 else 0) + amendedAgeAdjustment age +
          tldBonus domain))) ∧
    (ensureDomainProfileNew domain isHttps age).2 = 1 ∧
    0 ≤ (ensureDomainProfileNew domain isHttps age).1 ∧
    (ensureDomainProfileNew domain isHttps age).1 ≤ 1 := by
  obtain ⟨hlo, hhi⟩ := clamp_bounds
    (2/5 + (if isHttps then 1/20 else 0) + ageAdjustment age + tldBonus domain)
  set M := pyMax (1/20) (pyMin (19/20)
    (2/5 + (if isHttps then 1/20 else 0) + ageAdjustment age +
      tldBonus domain)) with hM
  have h50 : (50 : ℤ) ≤ round (M * 1000) := by
    have : round (((50 : ℤ) : ℚ)) ≤ round (M * 1000) :=
      round_rat_mono (by push_cast; linarith)
    rwa [round_intCast] at this
  have h950 : round (M * 1000) ≤ (950 : ℤ) := by
    have : round (M * 1000) ≤ round (((950 : ℤ) : ℚ)) :=
      round_rat_mono (by push_cast; linarith)
    rwa [round_intCast] at this
  refine ⟨by
    unfold ensureDomainProfileNew initialTrustScore
    rw [ageAdjustment_eq_amended], rfl, ?_, ?_⟩
  · show (0 : ℚ) ≤ initialTrustScore domain isHttps age
    unfold initialTrustScore round3
    rw [← hM]
    have : ((50 : ℤ) : ℚ) ≤ ((round (M * 1000) : ℤ) : ℚ) := by
      exact_mod_cast h50
    push_cast at this
    rw [div_nonneg_iff]
    left
    constructor <;> [linarith; norm_num]
  · show initialTrustScore domain isHttps age ≤ 1
    unfold initialTrustScore round3
    rw [← hM]
    have : ((round (M * 1000) : ℤ) : ℚ) ≤ ((950 : ℤ) : ℚ) := by
      exact_mod_cast h950
    rw [div_le_iff₀ (by norm_num : (0:ℚ) < 1000)]
    push_cast at this ⊢
    linarith

/-- Witness: the amended formula evaluated at a concrete unseen domain. -/
theorem trust_score_new_domain_witness :
    (ensureDomainProfileNew "nasa.gov" true (some 9000)).1 = 13/20 ∧
    (ensureDomainProfileNew "nasa.gov" true (some 9000)).2 = 1 := by
  have h := trust_score_new_domain "nasa.gov" true (some 9000)
  refine ⟨?_, h.2.1⟩
  rw [h.1]
  have htld : tldBonus "nasa.gov" = 1/10 := by
    unfold tldBonus
    rw [if_pos]
    exact ⟨by decide, Or.inl (by decide)⟩
  unfold amendedAgeAdjustment round3 pyMax pyMin
  rw [htld]
  norm_num [round_eq]

/-!
## Search fan-out: `sub_workers/search_scrape.py`, `execute_search_pass`

The provider-selection prelude (the code between computing
`available_providers` and the shuffle).  `ignored` abstracts
`rate_limit_manager.is_provider_ignored` at the moment of the pass.
-/

/-- Outcome of the provider-selection prelude of `execute_search_pass`:
either the non-empty filtered list handed to the shuffled dispatch loop, or
the early `return [], {"error": "All providers rate-limited."}`. -/
inductive PassPrelude where
  | dispatch (active : List String)
  | emptyResult (results : List String) (errors : List (String × String))
deriving DecidableEq

/-- Embedding of `execute_search_pass` lines 643-649: drop rate-limited
providers from the caller's list; if none remain, use the configured fallback
list filtered the same way; if that is also empty, return an empty result list
with the error map. -/
def searchPassPrelude (availableProviders fallback : List String)
    (ignored : String → Bool) : PassPrelude :=
  let active := availableProviders.filter (fun p => ¬ ignored p)
  if active.isEmpty then
    let active2 := fallback.filter (fun p => ¬ ignored p)
    if active2.isEmpty then
      .emptyResult [] [("error", "All providers rate-limited.")]
    else .dispatch active2
  else .dispatch active

/-- C5: before dispatch every ignored provider is removed from the caller's
ordered list; when nothing remains the fallback list (similarly filtered) is
used; when that too is empty the pass returns an empty result list together
with a non-empty error map — and the selection itself is a total function
(it cannot raise). -/
theorem search_pass_provider_filtering (availableProviders fallback :
    List String) (ignored : String → Bool) :
    (∀ active, searchPassPrelude availableProviders fallback ignored =
        .dispatch active →
      (∀ p ∈ active, ignored p = false) ∧ active ≠ [] ∧
      (active = availableProviders.filter (fun p => ¬ ignored p) ∨
       (availableProviders.filter (fun p => ¬ ignored p) = [] ∧
        active = fallback.filter (fun p => ¬ ignored p)))) ∧
    (∀ results errors,
      searchPassPrelude availableProviders fallback ignored =
        .emptyResult results errors →
      results = [] ∧ errors ≠ [] ∧
      availableProviders.filter (fun p => ¬ ignored p) = [] ∧
      fallback.filter (fun p => ¬ ignored p) = []) := by
  unfold searchPassPrelude
  constructor
  · intro active hact
    by_cases h1 : (availableProviders.filter (fun p => ¬ ignored p)).isEmpty
    · rw [if_pos h1] at hact
      by_cases h2 : (fallback.filter (fun p => ¬ ignored p)).isEmpty
      · rw [if_pos h2] at hact; exact absurd hact (by simp)
      · rw [if_neg h2] at hact
        have ha : active = fallback.filter (fun p => ¬ ignored p) :=
          (PassPrelude.dispatch.injEq _ _ ▸ hact).symm
        subst ha
        refine ⟨?_, by simpa [List.isEmpty_iff] using h2,
          Or.inr ⟨List.isEmpty_iff.1 h1, rfl⟩⟩
        intro p hp
        have := List.of_mem_filter hp
        simpa using this
    · rw [if_neg h1] at hact
      have ha : active = availableProviders.filter (fun p => ¬ ignored p) :=
        (PassPrelude.dispatch.injEq _ _ ▸ hact).symm
      subst ha
      refine ⟨?_, by simpa [List.isEmpty_iff] using h1, Or.inl rfl⟩
      intro p hp
      have := List.of_mem_filter hp
      simpa using this
  · intro results errors hres
    by_cases h1 : (availableProviders.filter (fun p => ¬ ignored p)).isEmpty
    · rw [if_pos h1] at hres
      by_cases h2 : (fallback.filter (fun p => ¬ ignored p)).isEmpty
      · rw [if_pos h2] at hres
        obtain ⟨hr, he⟩ := PassPrelude.emptyResult.injEq _ _ _ _ ▸ hres
        exact ⟨hr.symm, by rw [← he]; simp,
          List.isEmpty_iff.1 h1, List.isEmpty_iff.1 h2⟩
      · rw [if_neg h2] at hres; exact absurd hres (by simp)
    · rw [if_neg h1] at hres; exact absurd hres (by simp)

/-- Witness: the prelude at a concrete all-rate-limited configuration. -/
theorem search_pass_provider_filtering_witness :
    searchPassPrelude ["brave", "bing"] ["duckduckgo"] (fun _ => true) =
      .emptyResult [] [("error", "All providers rate-limited.")] ∧
    ([("error", "All providers rate-limited.")] :
      List (String × String)) ≠ [] := by
  have h := (search_pass_provider_filtering ["brave", "bing"] ["duckduckgo"]
    (fun _ => true)).2 [] [("error", "All providers rate-limited.")]
  have heq : searchPassPrelude ["brave", "bing"] ["duckduckgo"]
      (fun _ => true) =
      .emptyResult [] [("error", "All providers rate-limited.")] := by
    unfold searchPassPrelude
    simp
  exact ⟨heq, (h heq).2.1⟩

/-!
## Content/Vector Subsystem: `sub_workers/content_vector.py`, `search_vectors`

Table rows carry the LanceDB schema columns needed by the claims; further
columns are an association list.  The LanceDB query engine itself is external
to the repository; `lancedbRun` models its documented contract (rows
satisfying the `where` clause and the FTS match, at most `limit` of them;
the relevance ordering is irrelevant to the claims and not modelled).
`ftsMatch` abstracts the full-text index's match predicate.
-/

/-- A literal value usable in a `WHERE` equality condition; `unsupported`
stands for any Python value that is not str/bool/int/float (the code drops
such filter entries with a warning). -/
inductive LitVal where
  | s (v : String)
  | i (v : Int)
  | b (v : Bool)
  | f (v : ℚ)
  | unsupported
deriving DecidableEq

/-- A table row (`LanceDbRowSchema`): the modelled columns plus the rest. -/
structure VRow where
  chatId : String
  textContent : String
  cols : List (String × LitVal)
deriving DecidableEq

/-- Column lookup on a row. -/
def rowCol (r : VRow) (k : String) : Option LitVal :=
  if k = "chatId" then some (.s r.chatId)
  else if k = "textContent" then some (.s r.textContent)
  else r.cols.lookup k

/-- One equality condition of the assembled `WHERE` clause. -/
def condHolds (r : VRow) (c : String × LitVal) : Bool :=
  rowCol r c.1 == some c.2

/-- Modelled from the spec: the LanceDB query
`table.search(...).where(conds).limit(limit).to_list()` returns rows that
satisfy every condition and, when an FTS query is present, match it; at most
`limit` rows are returned (the relevance ranking is abstracted away). -/
def lancedbRun (table : List VRow) (ftsMatch : String → String → Bool)
    (ftsQuery : Option String) (conds : List (String × LitVal))
    (limit : Nat) : List VRow :=
  (table.filter (fun r =>
    (match ftsQuery with
     | some q => ftsMatch q r.textContent
     | none => true) && conds.all (condHolds r))).take limit

/-- Python truthiness of the `query_vector` argument (`None` and `[]` falsy). -/
def vecTruthy (v : Option (List ℚ)) : Bool :=
  match v with
  | none => false
  | some l => ¬ l.isEmpty

/-- `fts_query and fts_query.strip()`: the effective FTS string, `none` when
the argument is `None` or blank. -/
def effectiveFts (q : Option String) : Option String :=
  match q with
  | none => none
  | some s => if ⟨stripChars s.data⟩ = ("" : String) then none
              else some ⟨stripChars s.data⟩

/-- Python truthiness of the `metadata_filter` argument (`None` and `{}`
falsy). -/
def filterTruthy (f : Option (List (String × LitVal))) : Bool :=
  match f with
  | none => false
  | some l => ¬ l.isEmpty

/-- Embedding of `ContentVector.search_vectors` (the store must be `ready`:
`_ensure_ready` raises otherwise, modelled as `Except.error`).  Builds
the `WHERE` conditions from `group_id` (only when truthy) and the supported
metadata-filter entries, hands them to the LanceDB query with `limit`, and
short-circuits to `[]` when no vector, no non-blank FTS query and no
metadata filter are supplied. -/
def searchVectors (ready : Bool) (table : List VRow)
    (ftsMatch : String → String → Bool) (queryVector : Option (List ℚ))
    (limit : Nat) (groupId : Option String) (ftsQuery : Option String)
    (metadataFilter : Option (List (String × LitVal))) :
    Except String (List VRow) :=
  if ¬ ready then .error "ContentVector failed to initialize resources"
  else if ¬ vecTruthy queryVector ∧ effectiveFts ftsQuery = none ∧
      ¬ filterTruthy metadataFilter then .ok []
  else
    let whereConds :=
      (match groupId with
       | some g => if g ≠ "" then [("chatId", LitVal.s g)] else []
       | none => []) ++
      (match metadataFilter with
       | some l => l.filter (fun kv => kv.2 ≠ LitVal.unsupported)
       | none => [])
    .ok (lancedbRun table ftsMatch (effectiveFts ftsQuery) whereConds limit)

/-- Counterexample to C6: with `group_id = ""` (a string, but falsy in
Python) the `chatId` condition is never added, so a row of a different group
is returned: the claim fails at `g = ""`. -/
theorem search_vectors_empty_group_counterexample :
    searchVectors true [⟨"x", "hello", []⟩] (fun _ _ => true) none 5
      (some "") (some "hello") none =
      .ok [⟨"x", "hello", []⟩] ∧
    ("x" : String) ≠ "" := by
  constructor
  · unfold searchVectors vecTruthy effectiveFts filterTruthy lancedbRun
    simp [stripChars, wsB, condHolds]
  · decide

/-- C6 (amended): whenever `search_vectors` succeeds it returns at most
`limit` rows; when a **non-empty** `group_id` is supplied every returned row
has `chatId` equal to it; and for FTS-involving queries every returned row
matches the FTS query. -/
theorem search_vectors_group_scope_and_limit (table : List VRow)
    (ftsMatch : String → String → Bool) (queryVector : Option (List ℚ))
    (limit : Nat) (groupId : Option String) (ftsQuery : Option String)
    (metadataFilter : Option (List (String × LitVal))) :
    (∀ res, searchVectors true table ftsMatch queryVector limit groupId
        ftsQuery metadataFilter = .ok res →
      res.length ≤ limit ∧
      (∀ g, groupId = some g → g ≠ "" → ∀ r ∈ res, r.chatId = g) ∧
      (∀ q, effectiveFts ftsQuery = some q → ∀ r ∈ res,
        ftsMatch q r.textContent = true)) := by
  intro res hres
  unfold searchVectors at hres
  rw [if_neg (by simp)] at hres
  by_cases hshort : ¬ vecTruthy queryVector ∧ effectiveFts ftsQuery = none ∧
      ¬ filterTruthy metadataFilter
  · rw [if_pos hshort] at hres
    have : res = [] := by
      have := Except.ok.injEq (ε := String) _ _ ▸ hres
      exact this.symm
    subst this
    refine ⟨by simp, by simp, ?_⟩
    intro q hq
    rw [hshort.2.1] at hq
    exact absurd hq (by simp)
  · rw [if_neg hshort] at hres
    simp only [Except.ok.injEq] at hres
    subst hres
    refine ⟨?_, ?_, ?_⟩
    · unfold lancedbRun
      exact le_trans (List.length_take_le _ _) le_rfl
    · intro g hg hgne r hr
      subst hg
      unfold lancedbRun at hr
      have hmem := List.mem_of_mem_take hr
      have hcond := List.of_mem_filter hmem
      have hall := (Bool.and_eq_true _ _ ▸ hcond).2
      have hchat : condHolds r ("chatId", LitVal.s g) = true := by
        refine List.all_eq_true.1 hall _ ?_
        simp only [List.mem_append]
        left
        rw [if_pos hgne]
        simp
      unfold condHolds rowCol at hchat
      simp at hchat
      exact hchat
    · intro q hq r hr
      unfold lancedbRun at hr
      rw [hq] at hr
      have hmem := List.mem_of_mem_take hr
      have hcond := List.of_mem_filter hmem
      exact (Bool.and_eq_true _ _ ▸ hcond).1

/-- Witness: the amended C6 statement at a concrete one-row table. -/
theorem search_vectors_group_scope_and_limit_witness :
    searchVectors true [⟨"g1", "hello world", []⟩]
      (fun _ _ => true) none 5 (some "g1") (some "hello") none =
      .ok [⟨"g1", "hello world", []⟩] ∧
    (VRow.mk "g1" "hello world" []).chatId = "g1" := by
  have h := search_vectors_group_scope_and_limit
    [⟨"g1", "hello world", []⟩] (fun _ _ => true) none 5 (some "g1")
    (some "hello") none
  have heq : searchVectors true [⟨"g1", "hello world", []⟩]
      (fun _ _ => true) none 5 (some "g1") (some "hello") none =
      .ok [⟨"g1", "hello world", []⟩] := by
    unfold searchVectors vecTruthy effectiveFts filterTruthy lancedbRun
    simp [stripChars, wsB, condHolds, rowCol]
  exact ⟨heq, (h _ heq).2.1 "g1" rfl (by decide) _ (by decide)⟩

/-- C10: a call that supplies no query vector (`None` or `[]`), no non-blank
FTS query and no metadata filter (`None` or `{}`) returns the empty list for
every group id, limit and table — in particular without raising and without
consulting the table. -/
theorem search_vectors_no_criteria_returns_empty (table : List VRow)
    (ftsMatch : String → String → Bool) (queryVector : Option (List ℚ))
    (limit : Nat) (groupId : Option String) (ftsQuery : Option String)
    (metadataFilter : Option (List (String × LitVal)))
    (hv : vecTruthy queryVector = false)
    (hf : effectiveFts ftsQuery = none)
    (hm : filterTruthy metadataFilter = false) :
    searchVectors true table ftsMatch queryVector limit groupId ftsQuery
      metadataFilter = .ok [] := by
  unfold searchVectors
  rw [if_neg (by simp)]
  rw [if_pos ⟨by simp [hv], hf, by simp [hm]⟩]

/-- Witness: the no-criteria call on a concrete non-empty table with an empty
vector, a blank FTS query and an empty metadata filter. -/
theorem search_vectors_no_criteria_returns_empty_witness :
    searchVectors true [⟨"g1", "hello", []⟩] (fun _ _ => true) (some [])
      7 (some "g1") (some "   ") (some []) = .ok [] := by
  exact search_vectors_no_criteria_returns_empty _ _ _ _ _ _ _
    (by decide) (by simp [effectiveFts, stripChars, wsB]) (by decide)

/-!
## Research Graph stages: `graph_nodes.py`, `web_search_node`

A stage is modelled as a pure function from the fields of `OverallState` it
reads to its state delta plus the list of events it enqueues, in order.  The
cancellation flag is the value of `state.is_cancelled_flag.is_set()` (constant
here: C8 concerns a flag already set when the stage starts).  The search pass
is abstracted as an oracle returning, per query, the items, the per-provider
error map, and the progress events the pass itself enqueues via its callback.
-/

/-- An enqueued SSE event, reduced to what C8 distinguishes. -/
inductive SSEEv where
  | progress (stage : String)
  | markdownChunk (isFinal : Bool)
  | errorEv (stage : String) (isFatal : Bool)
  | completeEv
deriving DecidableEq

/-- Non-terminal events per C8: `progress` and `markdown_chunk`. -/
def isNonTerminalEv : SSEEv → Bool
  | .progress _ => true
  | .markdownChunk _ => true
  | _ => false

/-- What one `execute_search_pass` call contributes: result item URLs, the
per-provider error map, and the progress events emitted through the node's
callback while the pass runs. -/
structure PassOut where
  items : List String
  errors : List (String × String)
  events : List SSEEv

/-- Loop of `web_search_node` over `current_queries_for_hop`: `break` on a
set cancellation flag, skip queries already in `executed_search_queries`,
otherwise run the pass, keep items with a non-empty URL, enqueue one
`web_search_provider_error_*` progress event per provider error, and record
the query as executed this pass. -/
def webSearchLoop (cancelled : Bool) (executed : List String)
    (searchPass : String → PassOut) :
    List String → List String × List String × List SSEEv
  | [] => ([], [], [])
  | q :: rest =>
    if cancelled then ([], [], [])
    else if q ∈ executed then webSearchLoop cancelled executed searchPass rest
    else
      let out := searchPass q
      let (items, execd, evs) := webSearchLoop cancelled executed searchPass rest
      (out.items.filter (fun u => u ≠ "") ++ items,
       q :: execd,
       out.events ++
         out.errors.map (fun pe =>
           SSEEv.progress ("web_search_provider_error_" ++ pe.1)) ++ evs)

/-- Embedding of `web_search_node`: returns
`((search_results_this_hop, executed_search_queries), events)`.  An empty
query list returns before the final `search_done` progress event; otherwise
the loop runs and the node unconditionally enqueues `search_done`. -/
def webSearchNode (cancelled : Bool) (currentQueries executed : List String)
    (searchPass : String → PassOut) :
    (List String × List String) × List SSEEv :=
  if currentQueries = [] then (([], executed), [])
  else
    let (items, execd, evs) :=
      webSearchLoop cancelled executed searchPass currentQueries
    ((items, executed ++ execd), evs ++ [.progress "search_done"])

/-- Counterexample to C8: with the cancellation flag already set at stage
start and a non-empty query list, `web_search_node` still enqueues the
non-terminal `search_done` progress event before returning its delta. -/
theorem web_search_cancelled_still_emits_progress_counterexample :
    (webSearchNode true ["quantum supremacy"] []
        (fun _ => ⟨[], [], []⟩)).2 = [.progress "search_done"] ∧
    ((webSearchNode true ["quantum supremacy"] []
        (fun _ => ⟨[], [], []⟩)).2.any isNonTerminalEv) = true := by
  constructor <;> rfl

/-- C8 (amended): when cancellation is set before `web_search_node` starts
(with a non-empty query list), the stage dispatches no search pass — its
result delta is empty, the executed-query set is unchanged, and the only
event it enqueues is the fixed stage-completion `search_done` progress event,
independent of the search oracle. -/
theorem web_search_cancelled_no_dispatch (currentQueries executed :
    List String) (searchPass : String → PassOut)
    (h : currentQueries ≠ []) :
    webSearchNode true currentQueries executed searchPass =
      (([], executed), [.progress "search_done"]) := by
  unfold webSearchNode
  rw [if_neg h]
  match currentQueries, h with
  | q :: rest, _ =>
    show (let x := webSearchLoop true executed searchPass (q :: rest); _) = _
    rw [show webSearchLoop true executed searchPass (q :: rest) =
      ([], [], []) from by unfold webSearchLoop; rw [if_pos rfl]]
    simp

/-- Witness: the amended C8 statement at a concrete cancelled state. -/
theorem web_search_cancelled_no_dispatch_witness :
    webSearchNode true ["a", "b"] ["a"]
      (fun q => ⟨[q], [("brave", "boom")], [.progress "x"]⟩) =
      (([], ["a"]), [.progress "search_done"]) :=
  web_search_cancelled_no_dispatch ["a", "b"] ["a"] _ (by decide)

/-!
## Citation rewriting: `utils/citations.py`, `extract_and_map_llm_citations`
and the report assembly of `graph_nodes.py`, `synthesize_report_node`

The pattern `\[ref:\s*([^\]]+?)\]` (IGNORECASE) matches `[`, `ref:`
case-insensitively, then at least one non-`]` character up to the first `]`;
`group(1).strip()` makes the greedy-`\s*`/lazy-group split irrelevant, so the
embedding captures everything between `:` and the first `]` as the inner text.
The scanners are fuel-based (fuel = remaining length) so that concrete inputs
evaluate by kernel reduction; each step consumes at least one character, so
the initial fuel always suffices.
-/

/-- One regex match of the `[ref: URL]` marker pattern at the head of the
input: the matched span, the inner text between `:` and `]`, and the
remaining input after the match. -/
structure RefMatch where
  span : List Char
  inner : List Char
  rest : List Char

/-- Try the marker pattern at the current position (the regex engine's
attempt at one start offset). -/
def matchRefAt : List Char → Option RefMatch
  | '[' :: c1 :: c2 :: c3 :: ':' :: rest =>
    if (c1 == 'r' || c1 == 'R') && (c2 == 'e' || c2 == 'E') &&
        (c3 == 'f' || c3 == 'F') then
      let inner := rest.takeWhile (fun c => c ≠ ']')
      match rest.dropWhile (fun c => c ≠ ']') with
      | ']' :: r3 =>
        if inner.isEmpty then none
        else some ⟨'[' :: c1 :: c2 :: c3 :: ':' :: (inner ++ [']']), inner, r3⟩
      | _ => none
    else none
  | _ => none

/-- `finditer` over the text: leftmost, non-overlapping matches, returning
the inner texts in order. -/
def findRefMarkersGo : Nat → List Char → List (List Char)
  | 0, _ => []
  | _ + 1, [] => []
  | fuel + 1, c :: rest =>
    match matchRefAt (c :: rest) with
    | some rm => rm.inner :: findRefMarkersGo fuel rm.rest
    | none => findRefMarkersGo fuel rest

def findRefMarkers (cs : List Char) : List (List Char) :=
  findRefMarkersGo cs.length cs

/-- The replacement loop of `extract_and_map_llm_citations`: each matched
marker whose stripped URL is in the reverse map is replaced by
`[identifier]`; other matches are kept verbatim.  (The Python code iterates
the matches in reverse; over disjoint spans this equals one left-to-right
pass.) -/
def rewriteRefMarkersGo (urlToId : List (String × String)) :
    Nat → List Char → List Char
  | 0, cs => cs
  | _ + 1, [] => []
  | fuel + 1, c :: rest =>
    match matchRefAt (c :: rest) with
    | some rm =>
      match urlToId.lookup (⟨stripChars rm.inner⟩ : String) with
      | some ident => ('[' :: ident.data ++ [']']) ++
          rewriteRefMarkersGo urlToId fuel rm.rest
      | none => rm.span ++ rewriteRefMarkersGo urlToId fuel rm.rest
    | none => c :: rewriteRefMarkersGo urlToId fuel rest

def rewriteRefMarkers (urlToId : List (String × String)) (cs : List Char) :
    List Char :=
  rewriteRefMarkersGo urlToId cs.length cs

/-- Embedding of `extract_and_map_llm_citations`: returns the rewritten text
and the `{identifier: URL}` map.  Markers whose inner text strips to the
empty string are dropped from `found_urls` (Python's `if url:`) and left
unreplaced. -/
def extractAndMapLlmCitations (text : String) :
    String × List (String × String) :=
  if text = "" then ("", [])
  else
    let foundUrls := ((findRefMarkers text.data).map
      (fun inner => (⟨stripChars inner⟩ : String))).filter (fun u => u ≠ "")
    if foundUrls = [] then (text, [])
    else
      let idMap := resolveUrls foundUrls []
      let urlToId := idMap.map (fun p => (p.2, p.1))
      (⟨rewriteRefMarkers urlToId text.data⟩, idMap)

/-- A `ContentChunk` reduced to the fields `synthesize_report_node` reads. -/
structure Chunk where
  original_url : String
  page_title : String
deriving DecidableEq

/-- A `ReportSourceItem` as populated by `synthesize_report_node`. -/
structure ReportSourceItem where
  url : String
  title : String
  citation_marker : String
deriving DecidableEq

/-- Python string `<=`: lexicographic comparison by code point (a strict
prefix sorts first). -/
def charListLe : List Char → List Char → Bool
  | [], _ => true
  | _ :: _, [] => false
  | a :: as, b :: bs => if a == b then charListLe as bs else a.toNat < b.toNat

def strLe (a b : String) : Bool := charListLe a.data b.data

/-- `all_contributing_urls` (a set, then the stable `sort(key=lambda x:
x.url)` on the items — on distinct keys any correct sort yields the same
list): the distinct non-empty chunk URLs in ascending order. -/
def sortedContributingUrls (chunks : List Chunk) : List String :=
  (dedupFirst ((chunks.map (fun c => c.original_url)).filter
    (fun u => u ≠ ""))).insertionSort (fun a b => strLe a b = true)

/-- `next((chunk for chunk in chunks if chunk.original_url == url), None)`
followed by the title fallback. -/
def titleForUrl (chunks : List Chunk) (url : String) : String :=
  match chunks.find? (fun c => c.original_url == url) with
  | some c => c.page_title
  | none => "Web Source"

/-- The `source_items` list after sorting and marker assignment
(`item.citation_marker = f"[S{next_s_marker}]"`, 1-based in sorted order). -/
def sortedSourceItems (chunks : List Chunk) : List ReportSourceItem :=
  (sortedContributingUrls chunks).enum.map (fun p =>
    ⟨p.2, titleForUrl chunks p.2, "[S" ++ toString (p.1 + 1) ++ "]"⟩)

/-- One line of the sources section:
`f"- {item.citation_marker} [{item.title}]({item.url})"`. -/
def sourceLine (it : ReportSourceItem) : String :=
  "- " ++ it.citation_marker ++ " [" ++ it.title ++ "](" ++ it.url ++ ")"

/-- `sources_md_lines`: the header plus either the per-item lines or the
no-sources notice. -/
def sourcesMdLines (items : List ReportSourceItem) : List String :=
  "\n\n---\n\n## Sources\n" ::
    (if items.isEmpty then ["No primary web sources cited."]
     else items.map sourceLine)

/-- The date-context footer (emitted only for a truthy date context). -/
def dateLine (dateCtx : Option String) : String :=
  match dateCtx with
  | some d =>
    if d ≠ "" then
      "\n\n---\n*Report generated based on information available up to " ++
        "or relevant to: " ++ d ++ "*"
    else ""
  | none => ""

/-- The pure core of `synthesize_report_node` past the LLM call, for a
non-empty chunk list: citation rewriting, sources section, date footer, and
the assembled final markdown. -/
structure SynthOutput where
  body : String
  sources : List ReportSourceItem
  sourcesLines : List String
  final : String

def synthesizeAssemble (draft : String) (chunks : List Chunk)
    (dateCtx : Option String) : SynthOutput :=
  let body := (extractAndMapLlmCitations draft).1
  let items := sortedSourceItems chunks
  let lines := sourcesMdLines items
  ⟨body, items, lines,
   body ++ dateLine dateCtx ++ String.intercalate "\n" lines⟩

/-- `agent_dialogue.SYNTHESIS_NO_CONTENT_FALLBACK`. -/
def synthesisNoContentFallback : String :=
  "**[Editor]** Insufficient content was gathered to provide a " ++
  "comprehensive analysis. The research may need to be expanded with " ++
  "different search strategies or additional sources."

/-- `synthesize_report_node` state delta `(final_report_md, report_sources)`:
the empty-chunk early return emits the fallback markdown with no sources,
otherwise the assembled report. -/
def synthesizeReportNode (chunks : List Chunk) (draft : String)
    (dateCtx : Option String) : String × List ReportSourceItem :=
  if chunks.isEmpty then (synthesisNoContentFallback, [])
  else
    let out := synthesizeAssemble draft chunks dateCtx
    (out.final, out.sources)

/-- Substring occurrence on character lists. -/
def containsSubGo : List Char → List Char → Bool
  | pat, [] => pat.isEmpty
  | pat, c :: rest => pat.isPrefixOf (c :: rest) || containsSubGo pat rest

/-- Substring test used to state the claims. -/
def containsSub (pat s : String) : Bool :=
  containsSubGo pat.data s.data

/-- The distinct URLs appearing in `[ref: URL]` markers of a draft, in order
of first appearance — what C1/C2 say the sources are built from. -/
def specDraftUrls (draft : String) : List String :=
  dedupFirst (((findRefMarkers draft.data).map
    (fun inner => (⟨stripChars inner⟩ : String))).filter (fun u => u ≠ ""))

lemma map_enum_fst_fun {α β : Type} (l : List α) (h : Nat → β) :
    l.enum.map (fun p => h p.1) = (List.range l.length).map h := by
  rw [← List.enum_map_fst l, List.map_map]
  rfl

lemma map_enum_snd_fun {α β : Type} (l : List α) (g : α → β) :
    l.enum.map (fun p => g p.2) = l.map g := by
  rw [show l.map g = (l.enum.map Prod.snd).map g from by
    rw [List.enum_map_snd], List.map_map]
  rfl

/-- Counterexample to C1: on the draft `"Quantum fact. [ref: https://x.com/a]"`
with one contributing chunk, the sources section lists the marker `[S1]`
(with its URL), but `[S1]` never occurs in the report body — the body's
marker is the alphabetic `[A]` produced by `extract_and_map_llm_citations`.
So a marker listed in the sources section does not occur in the body. -/
theorem citation_marker_mismatch_counterexample :
    (synthesizeAssemble "Quantum fact. [ref: https://x.com/a]"
        [⟨"https://x.com/a", "X"⟩] none).sources.map
      (fun s => s.citation_marker) = ["[S1]"] ∧
    (synthesizeAssemble "Quantum fact. [ref: https://x.com/a]"
        [⟨"https://x.com/a", "X"⟩] none).sourcesLines =
      ["\n\n---\n\n## Sources\n", "- [S1] [X](https://x.com/a)"] ∧
    (synthesizeAssemble "Quantum fact. [ref: https://x.com/a]"
        [⟨"https://x.com/a", "X"⟩] none).body = "Quantum fact. [A]" ∧
    containsSub "[S1]" (synthesizeAssemble "Quantum fact. [ref: https://x.com/a]"
        [⟨"https://x.com/a", "X"⟩] none).body = false := by
  refine ⟨?_, ?_, ?_, ?_⟩ <;> decide

/-- C1 (amended): the sources section carries exactly one line per distinct
contributing URL — line `k` (0-based) holds marker `[S(k+1)]` with the `k`-th
URL in ascending order — and those URLs are pairwise distinct; but the body's
citation markers are the alphabetic identifiers of
`extract_and_map_llm_citations`, so a sources-section marker `[Sk]` need not
occur in the body. -/
theorem sources_section_structure (draft : String) (chunks : List Chunk)
    (dateCtx : Option String) :
    (synthesizeAssemble draft chunks dateCtx).sources =
      sortedSourceItems chunks ∧
    (synthesizeAssemble draft chunks dateCtx).sources.map
        (fun s => s.citation_marker) =
      (List.range (sortedContributingUrls chunks).length).map
        (fun k => "[S" ++ toString (k + 1) ++ "]") ∧
    (synthesizeAssemble draft chunks dateCtx).sources.map (fun s => s.url) =
      sortedContributingUrls chunks ∧
    (sortedContributingUrls chunks).Nodup ∧
    (sortedSourceItems chunks ≠ [] →
      (synthesizeAssemble draft chunks dateCtx).sourcesLines =
        "\n\n---\n\n## Sources\n" ::
          (sortedSourceItems chunks).map sourceLine) := by
  refine ⟨rfl, ?_, ?_, ?_, ?_⟩
  · show (sortedSourceItems chunks).map (fun s => s.citation_marker) = _
    unfold sortedSourceItems
    rw [List.map_map]
    exact map_enum_fst_fun (sortedContributingUrls chunks)
      (fun k => "[S" ++ toString (k + 1) ++ "]")
  · show (sortedSourceItems chunks).map (fun s => s.url) = _
    unfold sortedSourceItems
    rw [List.map_map]
    exact (map_enum_snd_fun (sortedContributingUrls chunks)
      (fun u => u)).trans (List.map_id' _)
  · unfold sortedContributingUrls
    exact (List.perm_insertionSort _ _).symm.nodup
      (dedupFirstAux_nodup _ []).1
  · intro hne
    show sourcesMdLines (sortedSourceItems chunks) = _
    unfold sourcesMdLines
    rw [if_neg]
    intro hemp
    exact hne (List.isEmpty_iff.1 hemp)

/-- Witness: the amended C1 statement instantiated at a concrete chunk list,
discharging the non-emptiness hypothesis of the sources-lines clause. -/
theorem sources_section_structure_witness :
    (synthesizeAssemble "d" [⟨"https://a.com", "A"⟩] none).sourcesLines =
      ["\n\n---\n\n## Sources\n", "- [S1] [A](https://a.com)"] := by
  have h := sources_section_structure "d" [⟨"https://a.com", "A"⟩] none
  rw [h.2.2.2.2 (by decide)]
  decide

/-- Counterexample to C2: a draft containing no `[ref: URL]` marker at all,
synthesised over one chunk: `report_sources` holds the chunk URL even though
no URL occurs in the draft (the code builds the sources from the chunk list,
not from the draft). -/
theorem report_sources_not_from_draft_counterexample :
    (synthesizeReportNode [⟨"https://a.com", "A"⟩] "No citations." none).2.map
      (fun s => s.url) = ["https://a.com"] ∧
    specDraftUrls "No citations." = [] := by
  constructor <;> decide

/-- C2 (amended): after the synthesis stage runs on a non-empty chunk list,
`report_sources` contains exactly the distinct non-empty `original_url`s of
the chunks handed to synthesis (each once, in ascending URL order) —
independently of which URLs the LLM draft cites. -/
theorem report_sources_from_chunks (draft : String) (chunks : List Chunk)
    (dateCtx : Option String) (h : chunks ≠ []) :
    (synthesizeReportNode chunks draft dateCtx).2.map (fun s => s.url) =
      sortedContributingUrls chunks ∧
    ((synthesizeReportNode chunks draft dateCtx).2.map
      (fun s => s.url)).Nodup := by
  have hnode : (synthesizeReportNode chunks draft dateCtx).2 =
      sortedSourceItems chunks := by
    unfold synthesizeReportNode
    rw [if_neg (by intro hemp; exact h (List.isEmpty_iff.1 hemp))]
    rfl
  rw [hnode]
  have hurls : (sortedSourceItems chunks).map (fun s => s.url) =
      sortedContributingUrls chunks := by
    unfold sortedSourceItems
    rw [List.map_map]
    exact (map_enum_snd_fun (sortedContributingUrls chunks)
      (fun u => u)).trans (List.map_id' _)
  refine ⟨hurls, ?_⟩
  rw [hurls]
  unfold sortedContributingUrls
  exact (List.perm_insertionSort _ _).symm.nodup (dedupFirstAux_nodup _ []).1

/-- Witness: the amended C2 statement at a concrete two-chunk run with a
duplicate URL, discharging the non-empty-chunks hypothesis. -/
theorem report_sources_from_chunks_witness :
    (synthesizeReportNode
        [⟨"https://b.com", "B"⟩, ⟨"https://a.com", "A"⟩,
         ⟨"https://b.com", "B2"⟩]
        "draft [ref: https://zzz.example]" none).2.map (fun s => s.url) =
      ["https://a.com", "https://b.com"] := by
  have h := report_sources_from_chunks "draft [ref: https://zzz.example]"
    [⟨"https://b.com", "B"⟩, ⟨"https://a.com", "A"⟩, ⟨"https://b.com", "B2"⟩]
    none (by decide)
  rw [h.1]
  decide

/-!
## LLM Reasoning Adapter: `sub_workers/llm_reasoning.py`, `_execute_llm_call`

The JSON handling of the three provider paths.  `json.loads` is modelled by a
fuel-based recursive-descent JSON reader (`jsonParse`); numbers keep their
lexeme (their numeric value is irrelevant to the claims), `NaN`/`Infinity`
are accepted as Python's loader does, and raw control characters in strings
are rejected (strict mode).  The node-API path (lines 930-966) and the
LiteLLM path (lines 1085-1131) run the identical repair cascade, embedded
once as `jsonRepairParse`; the xAI path (`_call_xai_directly_async`) only
strips and removes trailing commas, with no dict/list check.
-/

/-- A parsed JSON value. -/
inductive Json where
  | obj (fields : List (String × Json))
  | arr (elems : List Json)
  | str (s : String)
  | num (lexeme : String)
  | bool (b : Bool)
  | null

def Json.isContainer : Json → Bool
  | .obj _ => true
  | .arr _ => true
  | _ => false

/-- JSON inter-token whitespace (` \t\n\r`). -/
def jsonWsB (c : Char) : Bool :=
  c == ' ' || c == '\t' || c == '\n' || c == '\r'

def hexVal (c : Char) : Option Nat :=
  let n := c.toNat
  if 48 ≤ n ∧ n ≤ 57 then some (n - 48)
  else if 97 ≤ n ∧ n ≤ 102 then some (n - 87)
  else if 65 ≤ n ∧ n ≤ 70 then some (n - 55)
  else none

def escChar (e : Char) : Option Char :=
  if e == '"' then some '"'
  else if e == '\\' then some '\\'
  else if e == '/' then some '/'
  else if e == 'b' then some '\x08'
  else if e == 'f' then some '\x0c'
  else if e == 'n' then some '\n'
  else if e == 'r' then some '\r'
  else if e == 't' then some '\t'
  else none

/-- JSON string body reader (after the opening quote). -/
def jpStringGo : Nat → List Char → List Char →
    Except Unit (String × List Char)
  | 0, _, _ => .error ()
  | _ + 1, _, [] => .error ()
  | fuel + 1, acc, c :: rest =>
    if c == '"' then .ok (⟨acc.reverse⟩, rest)
    else if c == '\\' then
      match rest with
      | [] => .error ()
      | e :: rest2 =>
        if e == 'u' then
          match rest2 with
          | h1 :: h2 :: h3 :: h4 :: rest3 =>
            match hexVal h1, hexVal h2, hexVal h3, hexVal h4 with
            | some v1, some v2, some v3, some v4 =>
              jpStringGo fuel
                (Char.ofNat (((v1 * 16 + v2) * 16 + v3) * 16 + v4) :: acc)
                rest3
            | _, _, _, _ => .error ()
          | _ => .error ()
        else
          match escChar e with
          | some ec => jpStringGo fuel (ec :: acc) rest2
          | none => .error ()
    else if c.toNat < 32 then .error ()
    else jpStringGo fuel (c :: acc) rest

def jpString (cs : List Char) : Except Unit (String × List Char) :=
  jpStringGo (cs.length + 1) [] cs

def isDigitB (c : Char) : Bool := 48 ≤ c.toNat && c.toNat ≤ 57

def jpNumberExp (mantissa : List Char) (cs : List Char) :
    Except Unit (List Char × List Char) :=
  match cs with
  | e :: r =>
    if e == 'e' || e == 'E' then
      let (sgn, r2) := match r with
        | '+' :: r2 => (['+'], r2)
        | '-' :: r2 => (['-'], r2)
        | _ => (([] : List Char), r)
      let ds := r2.takeWhile isDigitB
      if ds.isEmpty then .error ()
      else .ok (mantissa ++ e :: sgn ++ ds, r2.dropWhile isDigitB)
    else .ok (mantissa, cs)
  | [] => .ok (mantissa, cs)

def jpNumberFrac (intPart : List Char) (cs : List Char) :
    Except Unit (List Char × List Char) :=
  match cs with
  | '.' :: r =>
    let ds := r.takeWhile isDigitB
    if ds.isEmpty then .error ()
    else jpNumberExp (intPart ++ '.' :: ds) (r.dropWhile isDigitB)
  | _ => jpNumberExp intPart cs

/-- JSON number lexer (returns the lexeme). -/
def jpNumber (cs : List Char) : Except Unit (List Char × List Char) :=
  let (neg, cs1) := match cs with
    | '-' :: r => (['-'], r)
    | _ => (([] : List Char), cs)
  match cs1 with
  | '0' :: r1 => jpNumberFrac (neg ++ ['0']) r1
  | c :: _ =>
    if isDigitB c ∧ c ≠ '0' then
      jpNumberFrac (neg ++ cs1.takeWhile isDigitB) (cs1.dropWhile isDigitB)
    else .error ()
  | [] => .error ()

/-- Object-member loop; `pv` parses one value (the value reader one fuel
level down). -/
def jpMembersGo (pv : List Char → Except Unit (Json × List Char)) :
    Nat → List (String × Json) → Bool → List Char →
    Except Unit (Json × List Char)
  | 0, _, _, _ => .error ()
  | fuel + 1, acc, first, cs =>
    let cs := cs.dropWhile jsonWsB
    match cs with
    | '}' :: r => if first then .ok (.obj [], r) else .error ()
    | '"' :: r =>
      match jpString r with
      | .error _ => .error ()
      | .ok (k, r2) =>
        match (r2.dropWhile jsonWsB) with
        | ':' :: r3 =>
          match pv r3 with
          | .error _ => .error ()
          | .ok (v, r4) =>
            match (r4.dropWhile jsonWsB) with
            | ',' :: r5 => jpMembersGo pv fuel ((k, v) :: acc) false r5
            | '}' :: r5 => .ok (.obj (((k, v) :: acc).reverse), r5)
            | _ => .error ()
        | _ => .error ()
    | _ => .error ()

/-- Array-element loop. -/
def jpElemsGo (pv : List Char → Except Unit (Json × List Char)) :
    Nat → List Json → Bool → List Char → Except Unit (Json × List Char)
  | 0, _, _, _ => .error ()
  | fuel + 1, acc, first, cs =>
    let cs' := cs.dropWhile jsonWsB
    match cs' with
    | ']' :: r => if first then .ok (.arr [], r) else .error ()
    | _ =>
      match pv cs' with
      | .error _ => .error ()
      | .ok (v, r2) =>
        match (r2.dropWhile jsonWsB) with
        | ',' :: r3 => jpElemsGo pv fuel (v :: acc) false r3
        | ']' :: r3 => .ok (.arr ((v :: acc).reverse), r3)
        | _ => .error ()

/-- JSON value reader (fuel bounds the recursion depth; the input length + 1
always suffices). -/
def jpValue : Nat → List Char → Except Unit (Json × List Char)
  | 0, _ => .error ()
  | fuel + 1, cs =>
    let cs := cs.dropWhile jsonWsB
    match cs with
    | '{' :: rest => jpMembersGo (jpValue fuel) fuel [] true rest
    | '[' :: rest => jpElemsGo (jpValue fuel) fuel [] true rest
    | '"' :: rest =>
      match jpString rest with
      | .ok (s, r) => .ok (.str s, r)
      | .error _ => .error ()
    | 't' :: 'r' :: 'u' :: 'e' :: r => .ok (.bool true, r)
    | 'f' :: 'a' :: 'l' :: 's' :: 'e' :: r => .ok (.bool false, r)
    | 'n' :: 'u' :: 'l' :: 'l' :: r => .ok (.null, r)
    | 'N' :: 'a' :: 'N' :: r => .ok (.num "NaN", r)
    | 'I' :: 'n' :: 'f' :: 'i' :: 'n' :: 'i' :: 't' :: 'y' :: r =>
      .ok (.num "Infinity", r)
    | '-' :: 'I' :: 'n' :: 'f' :: 'i' :: 'n' :: 'i' :: 't' :: 'y' :: r =>
      .ok (.num "-Infinity", r)
    | _ =>
      match jpNumber cs with
      | .ok (lex, r) => .ok (.num ⟨lex⟩, r)
      | .error _ => .error ()

/-- `json.loads`: one value surrounded by optional whitespace, nothing else. -/
def jsonParse (s : String) : Except Unit Json :=
  match jpValue (s.data.length + 1) s.data with
  | .ok (v, rest) =>
    if (rest.dropWhile jsonWsB).isEmpty then .ok v else .error ()
  | .error _ => .error ()

/-- `re.sub(r",\s*([\}\]])", r"\1", s)`: every comma followed by optional
whitespace and a closing brace/bracket collapses to the closer (left-to-right,
non-overlapping; each step consumes at least one character so the fuel
suffices). -/
def rtcGo : Nat → List Char → List Char
  | 0, cs => cs
  | _ + 1, [] => []
  | fuel + 1, c :: rest =>
    if c == ',' then
      match rest.dropWhile wsB with
      | d :: r3 =>
        if d == '}' || d == ']' then d :: rtcGo fuel r3
        else c :: rtcGo fuel rest
      | [] => c :: rtcGo fuel rest
    else c :: rtcGo fuel rest

def removeTrailingCommas (cs : List Char) : List Char :=
  rtcGo cs.length cs

/-- Does a `\s*` run followed by three backticks start here?  (The tail
requirement after the captured group in the fence regex.) -/
def tickTail (cs : List Char) : Bool :=
  match cs.dropWhile wsB with
  | '`' :: '`' :: '`' :: _ => true
  | _ => false

/-- Backtracking of `\{.*\}` / `\[.*\]` inside the fence: the greedy `.*`
picks the **largest** index holding the closing character such that the rest
of the pattern (`\s*` + three backticks) matches right after. -/
def fenceClose (close : Char) (body : List Char) : Option (List Char) :=
  (List.range body.length).reverse.findSome? (fun j =>
    match (body.drop j).head? with
    | some d =>
      if d == close ∧ tickTail (body.drop (j + 1)) then
        some (body.take (j + 1))
      else none
    | none => none)

/-- After the opening fence: `\s*` then the braced or bracketed group. -/
def fenceBody (r : List Char) : Option (List Char) :=
  let r' := r.dropWhile wsB
  match r'.head? with
  | some '{' => fenceClose '}' r'
  | some '[' => fenceClose ']' r'
  | _ => none

/-- One attempt of the fence pattern at the current position.  When the char
after the three backticks spell `json` the engine consumes them; backtracking
to the non-consuming alternative can never succeed (the body would have to
start with `j`), so the embedding commits. -/
def fenceMatchAt (cs : List Char) : Option (List Char) :=
  match cs with
  | '`' :: '`' :: '`' :: rest =>
    if ['j', 's', 'o', 'n'].isPrefixOf rest then fenceBody (rest.drop 4)
    else fenceBody rest
  | _ => none

/-- `re.search` of the fence pattern: leftmost matching start offset wins. -/
def fenceExtractGo : Nat → List Char → Option (List Char)
  | 0, _ => none
  | _ + 1, [] => none
  | fuel + 1, c :: rest =>
    match fenceMatchAt (c :: rest) with
    | some g => some g
    | none => fenceExtractGo fuel rest

def fenceExtract (cs : List Char) : Option (List Char) :=
  fenceExtractGo cs.length cs

def cutAt (cs : List Char) (start : Nat) (endChar : Char) :
    Except Unit (List Char) :=
  match (List.range cs.length).reverse.findSome? (fun j =>
      match (cs.drop j).head? with
      | some d => if d == endChar then some j else none
      | none => none) with
  | some last =>
    if start < last then .ok ((cs.drop start).take (last - start + 1))
    else .error ()
  | none => .error ()

/-- The aggressive cut: from the first `{` or `[` (whichever comes first) to
the last matching `}` or `]`; `JSONDecodeError` when absent or inverted. -/
def firstBraceCut (cs : List Char) : Except Unit (List Char) :=
  match cs.findIdx? (fun c => c == '{'), cs.findIdx? (fun c => c == '[') with
  | some b, some k => if b < k then cutAt cs b '}' else cutAt cs k ']'
  | some b, none => cutAt cs b '}'
  | none, some k => cutAt cs k ']'
  | none, none => .error ()

/-- The string the cascade continues with: group 2 of the fence regex when
it matches, otherwise the raw text. -/
def repairInput (raw : String) : List Char :=
  match fenceExtract raw.data with
  | some g => g
  | none => raw.data

/-- The repair cascade shared verbatim by the node-API and LiteLLM JSON
paths: (a) take group 2 of the fence regex when it matches; (b) cut from the
first `{`/`[` to the last matching closer; (c) drop trailing commas; then
`json.loads` and the dict/list check. -/
def jsonRepairParse (raw : String) : Except String Json :=
  match firstBraceCut (repairInput raw) with
  | .error _ => .error "No JSON object found."
  | .ok cut =>
    match jsonParse ⟨removeTrailingCommas cut⟩ with
    | .error _ => .error "LLM output not valid JSON"
    | .ok v =>
      if v.isContainer then .ok v else .error "Parsed JSON not dict/list"

/-- The xAI JSON handling (`_call_xai_directly_async`): strip, drop trailing
commas, `json.loads` — and **no** dict/list check. -/
def xaiJsonParse (raw : String) : Except String Json :=
  match jsonParse ⟨removeTrailingCommas (stripChars raw.data)⟩ with
  | .ok v => .ok v
  | .error _ => .error "JSON parsing failed"

/-- The `output` slot of an `_execute_llm_call` result. -/
inductive LLMOutput where
  | jsonVal (v : Json)
  | text (t : String)
  | noOutput

def outputIsContainer : LLMOutput → Bool
  | .jsonVal v => v.isContainer
  | _ => false

/-- The `{output, error}` shape returned by `_execute_llm_call` (usage
omitted: irrelevant to C7). -/
structure ExecResult where
  output : LLMOutput
  error : Option String

/-- Provider routing relevant to the JSON contract. -/
inductive ProviderPath where
  | xai
  | localNode
  | unified
deriving DecidableEq

/-- Node-API path, `expected_output_format == "json"`: success keeps the
parsed container; failure returns `output = {}` with the error set. -/
def nodeApiJsonResult (raw : String) : ExecResult :=
  match jsonRepairParse raw with
  | .ok v => ⟨.jsonVal v, none⟩
  | .error _ =>
    ⟨.jsonVal (.obj []),
     some "Failed to parse JSON from Node.js API response after retry."⟩

/-- LiteLLM path, JSON mode: success keeps the parsed container; exhausted
retries return `default_output = {}` with the error set. -/
def litellmJsonResult (raw : String) : ExecResult :=
  match jsonRepairParse raw with
  | .ok v => ⟨.jsonVal v, none⟩
  | .error _ =>
    ⟨.jsonVal (.obj []), some "LLM output not valid JSON (initial parse)"⟩

/-- xAI path, `response_format = json_object`: whatever `json.loads` yields
is returned with `error = None`. -/
def xaiJsonResult (raw : String) : ExecResult :=
  match xaiJsonParse raw with
  | .ok v => ⟨.jsonVal v, none⟩
  | .error e => ⟨.noOutput, some e⟩

/-- `_execute_llm_call` JSON post-processing, per provider route, applied to
the raw text the provider produced. -/
def executeJsonPostProcess (path : ProviderPath) (raw : String) : ExecResult :=
  match path with
  | .xai => xaiJsonResult raw
  | .localNode => nodeApiJsonResult raw
  | .unified => litellmJsonResult raw

/-- Counterexample to C7: on the xAI route a raw completion that is the JSON
string literal `"hello"` parses successfully (only the trailing-comma fix is
applied, no dict/list check), so the call resolves with `error = None` and a
**bare string** output. -/
theorem execute_json_bare_string_counterexample :
    executeJsonPostProcess .xai "\"hello\"" =
      ⟨.jsonVal (.str "hello"), none⟩ ∧
    outputIsContainer (LLMOutput.jsonVal (.str "hello")) = false := by
  exact ⟨rfl, rfl⟩

lemma jsonRepairParse_ok_container (raw : String) (v : Json)
    (h : jsonRepairParse raw = .ok v) : v.isContainer = true := by
  unfold jsonRepairParse at h
  rcases hc : firstBraceCut (repairInput raw) with _ | cut
  · simp only [hc] at h
    exact absurd h (by simp)
  · simp only [hc] at h
    rcases hp : jsonParse ⟨removeTrailingCommas cut⟩ with _ | w
    · simp only [hp] at h
      exact absurd h (by simp)
    · simp only [hp] at h
      by_cases hw : w.isContainer = true
      · rw [if_pos hw] at h
        injection h with h2
        subst h2
        exact hw
      · rw [if_neg hw] at h
        exact absurd h (by simp)

/-- C7 (amended): on the local-node and unified (LiteLLM) provider routes a
JSON-mode call that resolves without an error always carries a JSON object or
array (the repair cascade is followed by an explicit dict/list check); on the
xAI route only strip + trailing-comma repair runs and the output is whatever
JSON value parses, possibly a bare string. -/
theorem execute_json_container_on_checked_paths (path : ProviderPath)
    (raw : String) (hpath : path ≠ .xai)
    (hok : (executeJsonPostProcess path raw).error = none) :
    outputIsContainer (executeJsonPostProcess path raw).output = true := by
  match path, hpath with
  | .localNode, _ =>
    have hok2 : (nodeApiJsonResult raw).error = none := hok
    show outputIsContainer (nodeApiJsonResult raw).output = true
    unfold nodeApiJsonResult at hok2 ⊢
    rcases hr : jsonRepairParse raw with _ | v
    · simp [hr] at hok2
    · simp only [hr]
      show Json.isContainer v = true
      exact jsonRepairParse_ok_container raw v hr
  | .unified, _ =>
    have hok2 : (litellmJsonResult raw).error = none := hok
    show outputIsContainer (litellmJsonResult raw).output = true
    unfold litellmJsonResult at hok2 ⊢
    rcases hr : jsonRepairParse raw with _ | v
    · simp [hr] at hok2
    · simp only [hr]
      show Json.isContainer v = true
      exact jsonRepairParse_ok_container raw v hr

/-- Witness: the spec's own repair example — fenced, trailing-comma JSON in
prose — resolves on the checked path to the array `["a", "b"]`, and the
amended C7 theorem applies to it. -/
theorem execute_json_container_on_checked_paths_witness :
    executeJsonPostProcess .localNode
      "prefix ```json\n[\"a\", \"b\",]\n``` suffix" =
      ⟨.jsonVal (.arr [.str "a", .str "b"]), none⟩ ∧
    outputIsContainer (executeJsonPostProcess .localNode
      "prefix ```json\n[\"a\", \"b\",]\n``` suffix").output = true := by
  refine ⟨rfl, ?_⟩
  exact execute_json_container_on_checked_paths .localNode
    "prefix ```json\n[\"a\", \"b\",]\n``` suffix" (by decide) (by decide)

end LiveSearch
